import Mathlib

/-!
# Verification of the `uploadFolder` pipeline (packages/cli-lib/lib/uploadFolder.js)

A shallow embedding of the upload pipeline: eligibility filtering,
classification of files into five category batches (`getFilesByType`),
the batched main upload pass, the single retry pass, and the returned
outcome list, together with `hasUploadErrors`.

External collaborators (`walk`, `isAllowedExtension`, the ignore filter,
`convertFieldsJs`, `fs.readdirSync`, the remote `upload` call) are
parameters of an `Env` record: the pipeline is deterministic once the
environment fixes their answers.  The remote upload call is modelled by
two result maps, one for a file's first attempt and one for its retry.
Path helpers that live outside this repository (`splitLocalPath`,
`getExt`, `convertToUnixPath`, `path.join`, `path.dirname`) are modelled
from the spec and carry a `Modelled from the spec:` note.
-/

deriving instance DecidableEq for Except

namespace HubspotUpload

/-- Result of one remote upload attempt, as classified by `isFatalError`:
success, a transient (retryable) error, or a fatal error. -/
inductive UploadResult where
  | success : UploadResult
  | transient : UploadResult
  | fatal : UploadResult
deriving DecidableEq, Repr

/-- Source: the `FileUploadResultType` enum (`SUCCESS` / `FAILURE`). -/
inductive FileUploadResultType where
  | SUCCESS : FileUploadResultType
  | FAILURE : FileUploadResultType
deriving DecidableEq, Repr

/-- Source: the result objects built by the retry pass:
`{ resultType, error, file }`.  The error payload is abstracted to
`Option Unit` (`none` for a success outcome, `some ()` for a failure). -/
structure UploadOutcome where
  resultType : FileUploadResultType
  error : Option Unit
  file : String
deriving DecidableEq, Repr

/-- The environment of one `uploadFolder` run: the walker's file list and
the answers of every external collaborator. -/
structure Env where
  /-- `await walk(src)`: all file paths under the source root, in order. -/
  files : List String
  /-- The host's path separator character (`path.sep`). -/
  sep : Char
  /-- `isAllowedExtension(file)`: extension allow-list check. -/
  isAllowedExtension : String → Bool
  /-- The predicate returned by `createIgnoreFilter()`: `true` keeps the file. -/
  ignoreFilter : String → Bool
  /-- `convertFieldsJs(file, options)`: returns the static descriptor path,
  or fails (the thrown error is abstracted to `Unit`). -/
  convertFieldsJs : String → Except Unit String
  /-- `fs.readdirSync(dir, { withFileTypes: true })` filtered to
  non-directories and mapped to names: the file names on disk in `dir`. -/
  readdirFiles : String → List String
  /-- Result of the first upload attempt of a given task path. -/
  upload1 : String → UploadResult
  /-- Result of the retry upload attempt of a given task path. -/
  upload2 : String → UploadResult

/-- `pat` is an initial run of `s` (character-level `startsWith`,
written out so that it evaluates by kernel reduction). -/
def charsStartWith : List Char → List Char → Bool
  | [], _ => true
  | _ :: _, [] => false
  | a :: as, b :: bs => a = b && charsStartWith as bs

/-- Character-level `String.startsWith`. -/
def startsWithStr (pat s : String) : Bool :=
  charsStartWith pat.data s.data

/-- Character-level `String.endsWith`. -/
def endsWithStr (suf s : String) : Bool :=
  charsStartWith suf.data.reverse s.data.reverse

/-- Split a character list at every occurrence of the separator
character (the semantics of `String.split` at a one-character
separator), accumulating the current segment in reverse. -/
def splitChars (sep : Char) : List Char → List Char → List String
  | [], acc => [String.mk acc.reverse]
  | c :: cs, acc =>
    if c = sep then String.mk acc.reverse :: splitChars sep cs []
    else splitChars sep cs (c :: acc)

/-- Split a string at every occurrence of the separator character. -/
def splitStr (sep : Char) (s : String) : List String :=
  splitChars sep s.data []

/-- Modelled from the spec: `splitLocalPath` (from `../path`, not in this
repository) splits a local path into its nonempty segments at the host
separator. -/
def splitLocalPath (sep : Char) (file : String) : List String :=
  (splitStr sep file).filter (fun s => s ≠ "")

/-- Modelled from the spec: `getExt` (from `../path`, not in this
repository) returns the file's extension: the part of the last path
segment after its last dot, or `""` when the segment has no dot. -/
def getExt (sep : Char) (file : String) : String :=
  let segs := splitLocalPath sep file
  let dotted := splitStr '.' (segs.getLastD "")
  if dotted.length ≥ 2 then dotted.getLastD "" else ""

/-- Modelled from the spec: `path.dirname(file)`: the path with its last
segment removed. -/
def dirname (sep : Char) (file : String) : String :=
  String.intercalate (String.singleton sep) (splitLocalPath sep file).dropLast

/-- Modelled from the spec: `convertToUnixPath` (from `../path`, not in
this repository) normalizes a path to forward-slash separators: every
host separator character becomes `/`. -/
def convertToUnixPath (sep : Char) (s : String) : String :=
  String.mk (s.data.map (fun c => if c = sep then '/' else c))

/-- Modelled from the spec: `path.join(dest, relativePath)`: joins the
remainder onto the destination root with the host separator (not
duplicating it when the remainder already starts with one). -/
def pathJoin (sep : Char) (a b : String) : String :=
  if startsWithStr (String.singleton sep) b then a ++ b
  else a ++ String.singleton sep ++ b

/-- Source: `file.replace(new RegExp(a, ...), '')` where the regex is
`^` followed by the escaped source root: removes the source root when it
occurs at the start of the path, otherwise leaves the path unchanged. -/
def stripRoot (src file : String) : String :=
  if startsWithStr src file then file.drop src.length else file

/-- Source: the destination-path computation of `uploadFile`:
`convertToUnixPath(path.join(dest, file.replace(regex, '')))`. -/
def buildDestPath (sep : Char) (src dest file : String) : String :=
  convertToUnixPath sep (pathJoin sep dest (stripRoot src file))

/-- The five upload categories, named after the source's five arrays.
`moduleF` is the bundle-asset category (`moduleFiles`). -/
inductive Cat where
  | otherF : Cat
  | moduleF : Cat
  | cssjs : Cat
  | template : Cat
  | json : Cat
deriving DecidableEq, Repr

/-- Source: the per-file body of `getFilesByType`'s `forEach`.  Returns
the category and the task path pushed for this file (`none` when the
file is dropped), or an error when `convertFieldsJs` throws. -/
def classifyOne (env : Env) (file : String) : Except Unit (Option (Cat × String)) :=
  let parts := splitLocalPath env.sep file
  let extension := getExt env.sep file
  match parts.find? (fun part => endsWithStr ".module" part) with
  | some _ =>
    let fileName := parts.getLastD ""
    if fileName = "fields.js" then
      match env.convertFieldsJs file with
      | .ok converted => .ok (some (.moduleF, converted))
      | .error e => .error e
    else if extension = "json" then
      if fileName = "meta.json" then .ok (some (.moduleF, file))
      else if fileName = "fields.json" then
        if (env.readdirFiles (dirname env.sep file)).contains "fields.js" then .ok none
        else .ok (some (.moduleF, file))
      else .ok none
    else .ok (some (.moduleF, file))
  | none =>
    if extension = "js" ∨ extension = "css" then .ok (some (.cssjs, file))
    else if extension = "html" then .ok (some (.template, file))
    else if extension = "json" then .ok (some (.json, file))
    else .ok (some (.otherF, file))

/-- The five arrays built by `getFilesByType`, under their source names. -/
structure FilesByType where
  otherFiles : List String
  moduleFiles : List String
  cssAndJsFiles : List String
  templateFiles : List String
  jsonFiles : List String
deriving DecidableEq, Repr

/-- The task paths pushed to the array of category `c`, in push order. -/
def selectTasks (c : Cat) (classified : List (Option (Cat × String))) : List String :=
  classified.filterMap (fun o =>
    match o with
    | some (cat, task) => if cat = c then some task else none
    | none => none)

/-- Classify every file in order, aborting at the first file whose
`fields.js` conversion throws (the `forEach` of `getFilesByType`). -/
def classifyAll (env : Env) : List String → Except Unit (List (Option (Cat × String)))
  | [] => .ok []
  | f :: rest =>
    match classifyOne env f with
    | .ok o => (classifyAll env rest).map (fun classified => o :: classified)
    | .error e => .error e

/-- Source: `getFilesByType(files)`: classifies every file in order
(aborting when a `fields.js` conversion throws) and returns the five
category arrays. -/
def getFilesByType (env : Env) (files : List String) : Except Unit FilesByType :=
  (classifyAll env files).map (fun classified =>
    { otherFiles := selectTasks .otherF classified
      moduleFiles := selectTasks .moduleF classified
      cssAndJsFiles := selectTasks .cssjs classified
      templateFiles := selectTasks .template classified
      jsonFiles := selectTasks .json classified })

/-- Source line 94: `return [otherFiles, moduleFiles, cssAndJsFiles,
templateFiles, jsonFiles]` — the five batches in processing order. -/
def FilesByType.toList (fbt : FilesByType) : List (List String) :=
  [fbt.otherFiles, fbt.moduleFiles, fbt.cssAndJsFiles, fbt.templateFiles, fbt.jsonFiles]

/-- Source: the two eligibility filters applied to the walker's list:
`files.filter(isAllowedExtension).filter(createIgnoreFilter())`. -/
def allowedFiles (env : Env) : List String :=
  (env.files.filter (fun file => env.isAllowedExtension file)).filter
    (fun file => env.ignoreFilter file)

/-- Pair each task path with its destination path, as `uploadFile` does. -/
def taskPairs (env : Env) (src dest : String) (tasks : List String) : List (String × String) :=
  tasks.map (fun file => (file, buildDestPath env.sep src dest file))

/-- Source: the main pass over the category batches: each task either
succeeds (nothing retained), fails transiently (`failures.push({file,
destPath})`), or fails fatally (the error is rethrown and `uploadFolder`
rejects).  Returns the accumulated failures list. -/
def mainPass (env : Env) : List (String × String) → Except Unit (List (String × String))
  | [] => .ok []
  | (file, destPath) :: rest =>
    match env.upload1 file with
    | .success => mainPass env rest
    | .transient => (mainPass env rest).map (fun failures => (file, destPath) :: failures)
    | .fatal => .error ()

/-- Source: the retry batch `queue.addAll(failures.map(...))`: each
failure entry is retried once; success yields a `SUCCESS` outcome,
a transient error yields a `FAILURE` outcome, a fatal error is rethrown
and `uploadFolder` rejects. -/
def retryPass (env : Env) : List (String × String) → Except Unit (List UploadOutcome)
  | [] => .ok []
  | (file, _destPath) :: rest =>
    match env.upload2 file with
    | .success =>
      (retryPass env rest).map
        (fun results => { resultType := .SUCCESS, error := none, file := file } :: results)
    | .transient =>
      (retryPass env rest).map
        (fun results => { resultType := .FAILURE, error := some (), file := file } :: results)
    | .fatal => .error ()

/-- Source: `uploadFolder(accountId, src, dest, options)`: filter the
walked files, classify them, run the five category batches, then the
retry batch, and return the retry outcomes (throwing on any fatal
error).  `accountId` and `options` only parameterize the remote call and
are absorbed into `Env`. -/
def uploadFolder (env : Env) (src dest : String) : Except Unit (List UploadOutcome) :=
  match getFilesByType env (allowedFiles env) with
  | .error e => .error e
  | .ok filesByType =>
    match mainPass env (taskPairs env src dest filesByType.toList.flatten) with
    | .error e => .error e
    | .ok failures => retryPass env failures

/-- Source: `hasUploadErrors(results)`: true iff some result has
`resultType === FileUploadResultType.FAILURE`. -/
def hasUploadErrors (results : List UploadOutcome) : Bool :=
  results.any (fun result => result.resultType == FileUploadResultType.FAILURE)

/-- The task paths of the five batches of a run, in batch order
(empty when classification aborts). -/
def mainTasks (env : Env) : List String :=
  match getFilesByType env (allowedFiles env) with
  | .error _ => []
  | .ok filesByType => filesByType.toList.flatten

/-- The task path the classifier creates from a given file, if any:
`fields.js` files yield their converted artifact, dropped files and
files whose conversion fails yield nothing. -/
def keptTask (env : Env) (file : String) : Option String :=
  match classifyOne env file with
  | .ok (some (_c, t)) => some t
  | _ => none

/-! ## Characterization lemmas -/

theorem except_map_error {α β : Type} (f : α → β) :
    Except.map f (Except.error () : Except Unit α) = Except.error () := rfl

theorem except_map_ok {α β : Type} (f : α → β) (x : α) :
    Except.map f (Except.ok x : Except Unit α) = Except.ok (f x) := rfl

theorem classifyAll_cons_ok (env : Env) (f : String) (rest : List String)
    (o : Option (Cat × String)) (h : classifyOne env f = .ok o) :
    classifyAll env (f :: rest) =
      (classifyAll env rest).map (fun classified => o :: classified) := by
  simp [classifyAll, h]

theorem classifyAll_cons_error (env : Env) (f : String) (rest : List String)
    (h : classifyOne env f = .error ()) :
    classifyAll env (f :: rest) = .error () := by
  simp [classifyAll, h]

theorem mainPass_cons_success (env : Env) (file destPath : String)
    (rest : List (String × String)) (h : env.upload1 file = .success) :
    mainPass env ((file, destPath) :: rest) = mainPass env rest := by
  simp [mainPass, h]

theorem mainPass_cons_transient (env : Env) (file destPath : String)
    (rest : List (String × String)) (h : env.upload1 file = .transient) :
    mainPass env ((file, destPath) :: rest) =
      (mainPass env rest).map (fun failures => (file, destPath) :: failures) := by
  simp [mainPass, h]

theorem mainPass_cons_fatal (env : Env) (file destPath : String)
    (rest : List (String × String)) (h : env.upload1 file = .fatal) :
    mainPass env ((file, destPath) :: rest) = .error () := by
  simp [mainPass, h]

theorem retryPass_cons_success (env : Env) (file destPath : String)
    (rest : List (String × String)) (h : env.upload2 file = .success) :
    retryPass env ((file, destPath) :: rest) =
      (retryPass env rest).map
        (fun results => { resultType := .SUCCESS, error := none, file := file } :: results) := by
  simp [retryPass, h]

theorem retryPass_cons_transient (env : Env) (file destPath : String)
    (rest : List (String × String)) (h : env.upload2 file = .transient) :
    retryPass env ((file, destPath) :: rest) =
      (retryPass env rest).map
        (fun results => { resultType := .FAILURE, error := some (), file := file } :: results) := by
  simp [retryPass, h]

theorem retryPass_cons_fatal (env : Env) (file destPath : String)
    (rest : List (String × String)) (h : env.upload2 file = .fatal) :
    retryPass env ((file, destPath) :: rest) = .error () := by
  simp [retryPass, h]

theorem classifyAll_error_iff (env : Env) (l : List String) :
    classifyAll env l = .error () ↔ ∃ x ∈ l, classifyOne env x = .error () := by
  induction l with
  | nil => simp [classifyAll]
  | cons a rest ih =>
    cases hfa : classifyOne env a with
    | error e =>
      cases e
      rw [classifyAll_cons_error env a rest hfa]
      exact iff_of_true rfl ⟨a, List.mem_cons_self _ _, hfa⟩
    | ok b =>
      rw [classifyAll_cons_ok env a rest b hfa]
      cases hml : classifyAll env rest with
      | error e =>
        cases e
        rw [except_map_error]
        refine iff_of_true rfl ?_
        rcases ih.mp hml with ⟨x, hx, hfx⟩
        exact ⟨x, List.mem_cons_of_mem _ hx, hfx⟩
      | ok bs =>
        rw [except_map_ok]
        refine iff_of_false (fun hcontra => Except.noConfusion hcontra) ?_
        rintro ⟨x, hx, hfx⟩
        rcases List.mem_cons.mp hx with rfl | hx
        · rw [hfa] at hfx
          exact Except.noConfusion hfx
        · have herr := ih.mpr ⟨x, hx, hfx⟩
          rw [hml] at herr
          exact Except.noConfusion herr

theorem classifyAll_ok_forall₂ (env : Env) (l : List String)
    (cl : List (Option (Cat × String))) (h : classifyAll env l = .ok cl) :
    List.Forall₂ (fun x y => classifyOne env x = .ok y) l cl := by
  induction l generalizing cl with
  | nil =>
    simp only [classifyAll] at h
    obtain rfl := Except.ok.inj h
    exact List.Forall₂.nil
  | cons a rest ih =>
    cases hfa : classifyOne env a with
    | error e =>
      cases e
      rw [classifyAll_cons_error env a rest hfa] at h
      exact Except.noConfusion h
    | ok b =>
      rw [classifyAll_cons_ok env a rest b hfa] at h
      cases hml : classifyAll env rest with
      | error e =>
        rw [hml, except_map_error] at h
        exact Except.noConfusion h
      | ok bs =>
        rw [hml, except_map_ok] at h
        obtain rfl := Except.ok.inj h
        exact List.Forall₂.cons hfa (ih bs hml)

theorem forall₂_mem_right {α β : Type} {R : α → β → Prop} {l : List α} {cl : List β}
    (h : List.Forall₂ R l cl) {y : β} (hy : y ∈ cl) : ∃ x ∈ l, R x y := by
  induction h with
  | nil => cases hy
  | cons hR _htl ih =>
    rcases List.mem_cons.mp hy with hy | hy
    · subst hy
      exact ⟨_, List.mem_cons_self _ _, hR⟩
    · rcases ih hy with ⟨x, hx, hRx⟩
      exact ⟨x, List.mem_cons_of_mem _ hx, hRx⟩

theorem forall₂_mem_left {α β : Type} {R : α → β → Prop} {l : List α} {cl : List β}
    (h : List.Forall₂ R l cl) {x : α} (hx : x ∈ l) : ∃ y ∈ cl, R x y := by
  induction h with
  | nil => cases hx
  | cons hR _htl ih =>
    rcases List.mem_cons.mp hx with hx | hx
    · subst hx
      exact ⟨_, List.mem_cons_self _ _, hR⟩
    · rcases ih hx with ⟨y, hy, hRy⟩
      exact ⟨y, List.mem_cons_of_mem _ hy, hRy⟩

theorem mem_selectTasks {c : Cat} {cl : List (Option (Cat × String))} {t : String} :
    t ∈ selectTasks c cl ↔ some (c, t) ∈ cl := by
  unfold selectTasks
  rw [List.mem_filterMap]
  constructor
  · rintro ⟨o, ho, h⟩
    match o with
    | none => simp at h
    | some (c', t') =>
      by_cases hc : c' = c
      · subst hc
        simp at h
        subst h
        exact ho
      · simp [hc] at h
  · intro h
    exact ⟨some (c, t), h, by simp⟩

theorem getFilesByType_ok (env : Env) (files : List String) (fbt : FilesByType)
    (h : getFilesByType env files = .ok fbt) :
    ∃ cl, classifyAll env files = .ok cl ∧
      fbt = { otherFiles := selectTasks .otherF cl
              moduleFiles := selectTasks .moduleF cl
              cssAndJsFiles := selectTasks .cssjs cl
              templateFiles := selectTasks .template cl
              jsonFiles := selectTasks .json cl } := by
  unfold getFilesByType at h
  cases hm : classifyAll env files with
  | error e =>
    cases e
    rw [hm, except_map_error] at h
    exact Except.noConfusion h
  | ok cl =>
    rw [hm, except_map_ok] at h
    exact ⟨cl, rfl, (Except.ok.inj h).symm⟩

theorem getFilesByType_error_iff (env : Env) (files : List String) :
    getFilesByType env files = .error () ↔ ∃ f ∈ files, classifyOne env f = .error () := by
  rw [← classifyAll_error_iff]
  unfold getFilesByType
  cases hm : classifyAll env files with
  | error e =>
    cases e
    rw [except_map_error]
    exact iff_of_true rfl rfl
  | ok cl =>
    rw [except_map_ok]
    exact iff_of_false (fun hc => Except.noConfusion hc) (fun hc => Except.noConfusion hc)

theorem mem_batches_iff (env : Env) (files : List String) (fbt : FilesByType)
    (h : getFilesByType env files = .ok fbt) (t : String) :
    t ∈ fbt.toList.flatten ↔ ∃ f ∈ files, ∃ c, classifyOne env f = .ok (some (c, t)) := by
  rcases getFilesByType_ok env files fbt h with ⟨cl, hcl, rfl⟩
  have hmem : ∀ c : Cat, some (c, t) ∈ cl ↔
      ∃ f ∈ files, classifyOne env f = .ok (some (c, t)) := by
    intro c
    constructor
    · intro hin
      exact forall₂_mem_right (classifyAll_ok_forall₂ _ _ _ hcl) hin
    · rintro ⟨f, hf, hcf⟩
      rcases forall₂_mem_left (classifyAll_ok_forall₂ _ _ _ hcl) hf with ⟨y, hy, hfy⟩
      rw [hcf] at hfy
      obtain rfl := Except.ok.inj hfy
      exact hy
  simp only [FilesByType.toList, List.mem_flatten]
  constructor
  · rintro ⟨l, hl, ht⟩
    simp only [List.mem_cons, List.not_mem_nil, or_false] at hl
    rcases hl with rfl | rfl | rfl | rfl | rfl
    · exact ((hmem .otherF).mp (mem_selectTasks.mp ht)).imp
        (fun f hf => ⟨hf.1, .otherF, hf.2⟩)
    · exact ((hmem .moduleF).mp (mem_selectTasks.mp ht)).imp
        (fun f hf => ⟨hf.1, .moduleF, hf.2⟩)
    · exact ((hmem .cssjs).mp (mem_selectTasks.mp ht)).imp
        (fun f hf => ⟨hf.1, .cssjs, hf.2⟩)
    · exact ((hmem .template).mp (mem_selectTasks.mp ht)).imp
        (fun f hf => ⟨hf.1, .template, hf.2⟩)
    · exact ((hmem .json).mp (mem_selectTasks.mp ht)).imp
        (fun f hf => ⟨hf.1, .json, hf.2⟩)
  · rintro ⟨f, hf, c, hcf⟩
    have hin : some (c, t) ∈ cl := (hmem c).mpr ⟨f, hf, hcf⟩
    cases c
    · exact ⟨selectTasks .otherF cl, by simp, mem_selectTasks.mpr hin⟩
    · exact ⟨selectTasks .moduleF cl, by simp, mem_selectTasks.mpr hin⟩
    · exact ⟨selectTasks .cssjs cl, by simp, mem_selectTasks.mpr hin⟩
    · exact ⟨selectTasks .template cl, by simp, mem_selectTasks.mpr hin⟩
    · exact ⟨selectTasks .json cl, by simp, mem_selectTasks.mpr hin⟩

theorem mainPass_error_iff (env : Env) (ts : List (String × String)) :
    mainPass env ts = .error () ↔ ∃ p ∈ ts, env.upload1 p.1 = .fatal := by
  induction ts with
  | nil => simp [mainPass]
  | cons p rest ih =>
    obtain ⟨file, destPath⟩ := p
    cases h1 : env.upload1 file with
    | success =>
      rw [mainPass_cons_success env file destPath rest h1, ih]
      constructor
      · rintro ⟨q, hq, hfq⟩
        exact ⟨q, List.mem_cons_of_mem _ hq, hfq⟩
      · rintro ⟨q, hq, hfq⟩
        rcases List.mem_cons.mp hq with rfl | hq
        · simp [h1] at hfq
        · exact ⟨q, hq, hfq⟩
    | transient =>
      rw [mainPass_cons_transient env file destPath rest h1]
      cases hm : mainPass env rest with
      | error e =>
        cases e
        rw [except_map_error]
        refine iff_of_true rfl ?_
        rcases ih.mp hm with ⟨q, hq, hfq⟩
        exact ⟨q, List.mem_cons_of_mem _ hq, hfq⟩
      | ok failures =>
        rw [except_map_ok]
        refine iff_of_false (fun hc => Except.noConfusion hc) ?_
        rintro ⟨q, hq, hfq⟩
        rcases List.mem_cons.mp hq with rfl | hq
        · simp [h1] at hfq
        · have herr := ih.mpr ⟨q, hq, hfq⟩
          rw [hm] at herr
          exact Except.noConfusion herr
    | fatal =>
      rw [mainPass_cons_fatal env file destPath rest h1]
      exact iff_of_true rfl ⟨(file, destPath), List.mem_cons_self _ _, h1⟩

theorem mainPass_ok_of_noFatal (env : Env) (ts : List (String × String)) :
    (∀ p ∈ ts, env.upload1 p.1 ≠ .fatal) →
    mainPass env ts = .ok (ts.filter (fun p => env.upload1 p.1 = .transient)) := by
  induction ts with
  | nil => intro _h; simp [mainPass]
  | cons p rest ih =>
    intro h
    obtain ⟨file, destPath⟩ := p
    have hrest : ∀ q ∈ rest, env.upload1 q.1 ≠ .fatal :=
      fun q hq => h q (List.mem_cons_of_mem _ hq)
    have ihr := ih hrest
    cases h1 : env.upload1 file with
    | success =>
      rw [mainPass_cons_success env file destPath rest h1, ihr]
      simp [List.filter_cons, h1]
    | transient =>
      rw [mainPass_cons_transient env file destPath rest h1, ihr, except_map_ok]
      simp [List.filter_cons, h1]
    | fatal =>
      exact absurd h1 (by simpa using h (file, destPath) (List.mem_cons_self _ _))

theorem retryPass_error_iff (env : Env) (ts : List (String × String)) :
    retryPass env ts = .error () ↔ ∃ p ∈ ts, env.upload2 p.1 = .fatal := by
  induction ts with
  | nil => simp [retryPass]
  | cons p rest ih =>
    obtain ⟨file, destPath⟩ := p
    cases h2 : env.upload2 file with
    | success =>
      rw [retryPass_cons_success env file destPath rest h2]
      cases hm : retryPass env rest with
      | error e =>
        cases e
        rw [except_map_error]
        refine iff_of_true rfl ?_
        rcases ih.mp hm with ⟨q, hq, hfq⟩
        exact ⟨q, List.mem_cons_of_mem _ hq, hfq⟩
      | ok results =>
        rw [except_map_ok]
        refine iff_of_false (fun hc => Except.noConfusion hc) ?_
        rintro ⟨q, hq, hfq⟩
        rcases List.mem_cons.mp hq with rfl | hq
        · simp [h2] at hfq
        · have herr := ih.mpr ⟨q, hq, hfq⟩
          rw [hm] at herr
          exact Except.noConfusion herr
    | transient =>
      rw [retryPass_cons_transient env file destPath rest h2]
      cases hm : retryPass env rest with
      | error e =>
        cases e
        rw [except_map_error]
        refine iff_of_true rfl ?_
        rcases ih.mp hm with ⟨q, hq, hfq⟩
        exact ⟨q, List.mem_cons_of_mem _ hq, hfq⟩
      | ok results =>
        rw [except_map_ok]
        refine iff_of_false (fun hc => Except.noConfusion hc) ?_
        rintro ⟨q, hq, hfq⟩
        rcases List.mem_cons.mp hq with rfl | hq
        · simp [h2] at hfq
        · have herr := ih.mpr ⟨q, hq, hfq⟩
          rw [hm] at herr
          exact Except.noConfusion herr
    | fatal =>
      rw [retryPass_cons_fatal env file destPath rest h2]
      exact iff_of_true rfl ⟨(file, destPath), List.mem_cons_self _ _, h2⟩

/-- The outcome the retry pass produces for one failure entry whose retry
does not fail fatally. -/
def retryOutcome (env : Env) (p : String × String) : UploadOutcome :=
  if env.upload2 p.1 = .success then { resultType := .SUCCESS, error := none, file := p.1 }
  else { resultType := .FAILURE, error := some (), file := p.1 }

theorem retryPass_ok_of_noFatal (env : Env) (ts : List (String × String)) :
    (∀ p ∈ ts, env.upload2 p.1 ≠ .fatal) →
    retryPass env ts = .ok (ts.map (retryOutcome env)) := by
  induction ts with
  | nil => intro _h; simp [retryPass]
  | cons p rest ih =>
    intro h
    obtain ⟨file, destPath⟩ := p
    have hrest : ∀ q ∈ rest, env.upload2 q.1 ≠ .fatal :=
      fun q hq => h q (List.mem_cons_of_mem _ hq)
    have ihr := ih hrest
    cases h2 : env.upload2 file with
    | success =>
      rw [retryPass_cons_success env file destPath rest h2, ihr, except_map_ok]
      simp [retryOutcome, h2]
    | transient =>
      rw [retryPass_cons_transient env file destPath rest h2, ihr, except_map_ok]
      simp [retryOutcome, h2]
    | fatal =>
      exact absurd h2 (by simpa using h (file, destPath) (List.mem_cons_self _ _))

/-- The extension-based category of a non-bundle file (the `else if`
chain of `getFilesByType`). -/
def extCat (extension : String) : Cat :=
  if extension = "js" ∨ extension = "css" then .cssjs
  else if extension = "html" then .template
  else if extension = "json" then .json
  else .otherF

theorem classifyOne_nonbundle (env : Env) (f : String)
    (hfind : (splitLocalPath env.sep f).find? (fun part => endsWithStr ".module" part) = none) :
    classifyOne env f = .ok (some (extCat (getExt env.sep f), f)) := by
  by_cases h1 : getExt env.sep f = "js" ∨ getExt env.sep f = "css"
  · simp [classifyOne, extCat, hfind, h1]
  · by_cases h2 : getExt env.sep f = "html"
    · simp [classifyOne, extCat, hfind, h1, h2]
    · by_cases h3 : getExt env.sep f = "json"
      · simp [classifyOne, extCat, hfind, h1, h2, h3]
      · simp [classifyOne, extCat, hfind, h1, h2, h3]

theorem classifyOne_bundle_fieldsJs (env : Env) (f : String) (m : String)
    (hfind : (splitLocalPath env.sep f).find? (fun part => endsWithStr ".module" part) = some m)
    (hlast : (splitLocalPath env.sep f).getLast?.getD "" = "fields.js") :
    classifyOne env f =
      (env.convertFieldsJs f).map (fun converted => some (.moduleF, converted)) := by
  cases hconv : env.convertFieldsJs f with
  | ok converted => simp [classifyOne, hfind, hlast, hconv, except_map_ok]
  | error e =>
    cases e
    simp [classifyOne, hfind, hlast, hconv, except_map_error]

theorem classifyOne_bundle_meta (env : Env) (f : String) (m : String)
    (hfind : (splitLocalPath env.sep f).find? (fun part => endsWithStr ".module" part) = some m)
    (hlast : (splitLocalPath env.sep f).getLast?.getD "" = "meta.json")
    (hext : getExt env.sep f = "json") :
    classifyOne env f = .ok (some (.moduleF, f)) := by
  simp [classifyOne, hfind, hlast, hext]

theorem classifyOne_bundle_fieldsJson_sibling (env : Env) (f : String) (m : String)
    (hfind : (splitLocalPath env.sep f).find? (fun part => endsWithStr ".module" part) = some m)
    (hlast : (splitLocalPath env.sep f).getLast?.getD "" = "fields.json")
    (hext : getExt env.sep f = "json")
    (hdir : "fields.js" ∈ env.readdirFiles (dirname env.sep f)) :
    classifyOne env f = .ok none := by
  simp [classifyOne, hfind, hlast, hext, hdir]

theorem classifyOne_bundle_fieldsJson_noSibling (env : Env) (f : String) (m : String)
    (hfind : (splitLocalPath env.sep f).find? (fun part => endsWithStr ".module" part) = some m)
    (hlast : (splitLocalPath env.sep f).getLast?.getD "" = "fields.json")
    (hext : getExt env.sep f = "json")
    (hdir : "fields.js" ∉ env.readdirFiles (dirname env.sep f)) :
    classifyOne env f = .ok (some (.moduleF, f)) := by
  simp [classifyOne, hfind, hlast, hext, hdir]

theorem classifyOne_bundle_otherJson (env : Env) (f : String) (m : String)
    (hfind : (splitLocalPath env.sep f).find? (fun part => endsWithStr ".module" part) = some m)
    (hjs : (splitLocalPath env.sep f).getLast?.getD "" ≠ "fields.js")
    (hmeta : (splitLocalPath env.sep f).getLast?.getD "" ≠ "meta.json")
    (hfj : (splitLocalPath env.sep f).getLast?.getD "" ≠ "fields.json")
    (hext : getExt env.sep f = "json") :
    classifyOne env f = .ok none := by
  simp [classifyOne, hfind, hjs, hmeta, hfj, hext]

theorem classifyOne_bundle_nonJson (env : Env) (f : String) (m : String)
    (hfind : (splitLocalPath env.sep f).find? (fun part => endsWithStr ".module" part) = some m)
    (hjs : (splitLocalPath env.sep f).getLast?.getD "" ≠ "fields.js")
    (hext : getExt env.sep f ≠ "json") :
    classifyOne env f = .ok (some (.moduleF, f)) := by
  simp [classifyOne, hfind, hjs, hext]

theorem classifyOne_bundle_notFieldsJs_ne_error (env : Env) (f : String) (m : String)
    (hfind : (splitLocalPath env.sep f).find? (fun part => endsWithStr ".module" part) = some m)
    (hlast : (splitLocalPath env.sep f).getLast?.getD "" ≠ "fields.js") :
    classifyOne env f ≠ .error () := by
  by_cases hext : getExt env.sep f = "json"
  · by_cases hmeta : (splitLocalPath env.sep f).getLast?.getD "" = "meta.json"
    · rw [classifyOne_bundle_meta env f m hfind hmeta hext]
      exact fun hc => Except.noConfusion hc
    · by_cases hfj : (splitLocalPath env.sep f).getLast?.getD "" = "fields.json"
      · by_cases hdir : "fields.js" ∈ env.readdirFiles (dirname env.sep f)
        · rw [classifyOne_bundle_fieldsJson_sibling env f m hfind hfj hext hdir]
          exact fun hc => Except.noConfusion hc
        · rw [classifyOne_bundle_fieldsJson_noSibling env f m hfind hfj hext hdir]
          exact fun hc => Except.noConfusion hc
      · rw [classifyOne_bundle_otherJson env f m hfind hlast hmeta hfj hext]
        exact fun hc => Except.noConfusion hc
  · rw [classifyOne_bundle_nonJson env f m hfind hlast hext]
    exact fun hc => Except.noConfusion hc

theorem classifyOne_error_iff (env : Env) (f : String) :
    classifyOne env f = .error () ↔
      (∃ m, (splitLocalPath env.sep f).find? (fun part => endsWithStr ".module" part) = some m) ∧
      (splitLocalPath env.sep f).getLast?.getD "" = "fields.js" ∧
      env.convertFieldsJs f = .error () := by
  cases hfind : (splitLocalPath env.sep f).find? (fun part => endsWithStr ".module" part) with
  | none =>
    refine iff_of_false ?_ ?_
    · intro hc
      rw [classifyOne_nonbundle env f hfind] at hc
      exact Except.noConfusion hc
    · rintro ⟨⟨m, hm⟩, _, _⟩
      exact Option.noConfusion hm
  | some m =>
    by_cases hlast : (splitLocalPath env.sep f).getLast?.getD "" = "fields.js"
    · rw [classifyOne_bundle_fieldsJs env f m hfind hlast]
      cases hconv : env.convertFieldsJs f with
      | error e =>
        cases e
        rw [except_map_error]
        exact iff_of_true rfl ⟨⟨m, rfl⟩, hlast, rfl⟩
      | ok c =>
        rw [except_map_ok]
        refine iff_of_false (fun hc => Except.noConfusion hc) ?_
        rintro ⟨_, _, hce⟩
        exact Except.noConfusion hce
    · refine iff_of_false (classifyOne_bundle_notFieldsJs_ne_error env f m hfind hlast) ?_
      rintro ⟨_, hl, _⟩
      exact hlast hl

/-! ## The fatal-run predicate and the pipeline-level run lemmas -/

/-- A fatal condition somewhere in the run: a `fields.js` conversion
throws during classification, or a main-pass upload attempt fails
fatally, or (the main pass being fatal-free) a retry attempt of a
transiently-failed task fails fatally. -/
def FatalRun (env : Env) : Prop :=
  (∃ f ∈ allowedFiles env, classifyOne env f = .error ()) ∨
  (∃ t ∈ mainTasks env, env.upload1 t = .fatal) ∨
  ((∀ t ∈ mainTasks env, env.upload1 t ≠ .fatal) ∧
    ∃ t ∈ (mainTasks env).filter (fun t => env.upload1 t = .transient),
      env.upload2 t = .fatal)

theorem mainTasks_eq (env : Env) (fbt : FilesByType)
    (h : getFilesByType env (allowedFiles env) = .ok fbt) :
    mainTasks env = fbt.toList.flatten := by
  unfold mainTasks
  rw [h]

theorem taskPairs_filter_transient (env : Env) (src dest : String) (ts : List String) :
    (taskPairs env src dest ts).filter (fun p => env.upload1 p.1 = .transient) =
      taskPairs env src dest (ts.filter (fun t => env.upload1 t = .transient)) := by
  unfold taskPairs
  rw [List.filter_map]
  congr 1

theorem mem_fst_taskPairs (env : Env) (src dest : String) (ts : List String)
    (p : String × String) (hp : p ∈ taskPairs env src dest ts) : p.1 ∈ ts := by
  unfold taskPairs at hp
  rcases List.mem_map.mp hp with ⟨t, ht, rfl⟩
  exact ht

theorem fst_mem_taskPairs (env : Env) (src dest : String) (ts : List String)
    (t : String) (ht : t ∈ ts) :
    (t, buildDestPath env.sep src dest t) ∈ taskPairs env src dest ts :=
  List.mem_map.mpr ⟨t, ht, rfl⟩

theorem uploadFolder_classify_error (env : Env) (src dest : String)
    (h : getFilesByType env (allowedFiles env) = .error ()) :
    uploadFolder env src dest = .error () := by
  simp [uploadFolder, h]

theorem uploadFolder_main_error (env : Env) (src dest : String) (fbt : FilesByType)
    (hfbt : getFilesByType env (allowedFiles env) = .ok fbt)
    (hmp : mainPass env (taskPairs env src dest fbt.toList.flatten) = .error ()) :
    uploadFolder env src dest = .error () := by
  simp [uploadFolder, hfbt, hmp]

theorem uploadFolder_retry (env : Env) (src dest : String) (fbt : FilesByType)
    (failures : List (String × String))
    (hfbt : getFilesByType env (allowedFiles env) = .ok fbt)
    (hmp : mainPass env (taskPairs env src dest fbt.toList.flatten) = .ok failures) :
    uploadFolder env src dest = retryPass env failures := by
  simp [uploadFolder, hfbt, hmp]

theorem exists_fst_taskPairs (env : Env) (src dest : String) (ts : List String)
    (P : String → Prop) :
    (∃ p ∈ taskPairs env src dest ts, P p.1) ↔ ∃ t ∈ ts, P t := by
  constructor
  · rintro ⟨p, hp, hP⟩
    exact ⟨p.1, mem_fst_taskPairs env src dest ts p hp, hP⟩
  · rintro ⟨t, ht, hP⟩
    exact ⟨(t, buildDestPath env.sep src dest t), fst_mem_taskPairs env src dest ts t ht, hP⟩

theorem uploadFolder_error_iff (env : Env) (src dest : String) :
    uploadFolder env src dest = .error () ↔ FatalRun env := by
  cases hfbt : getFilesByType env (allowedFiles env) with
  | error e =>
    cases e
    refine iff_of_true (uploadFolder_classify_error env src dest hfbt) (Or.inl ?_)
    exact (getFilesByType_error_iff env (allowedFiles env)).mp hfbt
  | ok fbt =>
    have hmt := mainTasks_eq env fbt hfbt
    have hnc : ¬ ∃ f ∈ allowedFiles env, classifyOne env f = .error () := by
      intro hex
      have herr : getFilesByType env (allowedFiles env) = .error () :=
        (getFilesByType_error_iff env (allowedFiles env)).mpr hex
      rw [hfbt] at herr
      exact Except.noConfusion herr
    cases hmp : mainPass env (taskPairs env src dest fbt.toList.flatten) with
    | error e =>
      cases e
      refine iff_of_true (uploadFolder_main_error env src dest fbt hfbt hmp)
        (Or.inr (Or.inl ?_))
      rcases (mainPass_error_iff env _).mp hmp with ⟨p, hp, hfp⟩
      exact ⟨p.1, hmt ▸ mem_fst_taskPairs env src dest _ p hp, hfp⟩
    | ok failures =>
      have hnofatal : ∀ p ∈ taskPairs env src dest fbt.toList.flatten,
          env.upload1 p.1 ≠ .fatal := by
        intro p hp hf
        have herr : mainPass env (taskPairs env src dest fbt.toList.flatten) = .error () :=
          (mainPass_error_iff env _).mpr ⟨p, hp, hf⟩
        rw [hmp] at herr
        exact Except.noConfusion herr
      have hfail : failures = taskPairs env src dest
          ((fbt.toList.flatten).filter (fun t => env.upload1 t = .transient)) := by
        have hmk := mainPass_ok_of_noFatal env (taskPairs env src dest fbt.toList.flatten) hnofatal
        rw [hmp] at hmk
        rw [← taskPairs_filter_transient]
        exact Except.ok.inj hmk
      rw [uploadFolder_retry env src dest fbt failures hfbt hmp, retryPass_error_iff]
      unfold FatalRun
      constructor
      · rintro ⟨p, hp, hf2⟩
        refine Or.inr (Or.inr ⟨?_, ?_⟩)
        · intro t ht hf1
          rw [hmt] at ht
          exact hnofatal (t, buildDestPath env.sep src dest t)
            (fst_mem_taskPairs env src dest _ t ht) hf1
        · rw [hmt]
          rw [hfail] at hp
          exact ⟨p.1, mem_fst_taskPairs env src dest _ p hp, hf2⟩
      · rintro (h1 | h2 | ⟨_hnf, t, ht, hf2⟩)
        · exact absurd h1 hnc
        · rcases h2 with ⟨t, ht, hf1⟩
          rw [hmt] at ht
          exact absurd hf1 (hnofatal (t, buildDestPath env.sep src dest t)
            (fst_mem_taskPairs env src dest _ t ht))
        · rw [hmt] at ht
          rw [hfail]
          exact ⟨(t, buildDestPath env.sep src dest t),
            fst_mem_taskPairs env src dest _ t ht, hf2⟩

/-! ## Claims -/

/-- **C9**: `hasUploadErrors(outcomes)` returns true iff at least one
outcome in the list is tagged FAILURE; in particular
`hasUploadErrors([])` is false. -/
theorem c9_hasUploadErrors_iff (results : List UploadOutcome) :
    (hasUploadErrors results = true ↔ ∃ r ∈ results, r.resultType = .FAILURE) ∧
    hasUploadErrors [] = false := by
  constructor
  · unfold hasUploadErrors
    rw [List.any_eq_true]
    constructor
    · rintro ⟨r, hr, hb⟩
      exact ⟨r, hr, by simpa using hb⟩
    · rintro ⟨r, hr, hb⟩
      exact ⟨r, hr, by simp [hb]⟩
  · rfl

/-- **C3**: a fatal condition — a fatal upload error as judged by the
error classifier, in the main pass or in the retry pass, or a
scripted-fields (`fields.js`) transformation failure during
classification — makes `uploadFolder` reject with a thrown error and no
outcome list, and these are the only ways the pipeline rejects: a run
without fatal conditions (transient upload errors allowed anywhere)
returns an outcome list, so transient errors never escape. -/
theorem c3_fatal_escapes_transient_absorbed (env : Env) (src dest : String) :
    (uploadFolder env src dest = .error () ↔ FatalRun env) ∧
    (¬ FatalRun env → ∃ results, uploadFolder env src dest = .ok results) ∧
    (∀ f, classifyOne env f = .error () ↔
      (∃ m, (splitLocalPath env.sep f).find? (fun part => endsWithStr ".module" part) = some m) ∧
      (splitLocalPath env.sep f).getLast?.getD "" = "fields.js" ∧
      env.convertFieldsJs f = .error ()) := by
  refine ⟨uploadFolder_error_iff env src dest, ?_, classifyOne_error_iff env⟩
  intro hnf
  cases hu : uploadFolder env src dest with
  | error e =>
    cases e
    exact absurd ((uploadFolder_error_iff env src dest).mp hu) hnf
  | ok results => exact ⟨results, rfl⟩

theorem retryOutcome_file (env : Env) (p : String × String) :
    (retryOutcome env p).file = p.1 := by
  unfold retryOutcome
  by_cases h : env.upload2 p.1 = .success <;> simp [h]

theorem uploadFolder_ok_results (env : Env) (src dest : String)
    (results : List UploadOutcome) (h : uploadFolder env src dest = .ok results) :
    results = ((mainTasks env).filter (fun t => env.upload1 t = .transient)).map
        (fun t => retryOutcome env (t, buildDestPath env.sep src dest t)) ∧
    (∀ t ∈ mainTasks env, env.upload1 t ≠ .fatal) := by
  cases hfbt : getFilesByType env (allowedFiles env) with
  | error e =>
    cases e
    rw [uploadFolder_classify_error env src dest hfbt] at h
    exact Except.noConfusion h
  | ok fbt =>
    have hmt := mainTasks_eq env fbt hfbt
    cases hmp : mainPass env (taskPairs env src dest fbt.toList.flatten) with
    | error e =>
      cases e
      rw [uploadFolder_main_error env src dest fbt hfbt hmp] at h
      exact Except.noConfusion h
    | ok failures =>
      have hnofatal : ∀ p ∈ taskPairs env src dest fbt.toList.flatten,
          env.upload1 p.1 ≠ .fatal := by
        intro p hp hf
        have herr : mainPass env (taskPairs env src dest fbt.toList.flatten) = .error () :=
          (mainPass_error_iff env _).mpr ⟨p, hp, hf⟩
        rw [hmp] at herr
        exact Except.noConfusion herr
      have hfail : failures = taskPairs env src dest
          ((fbt.toList.flatten).filter (fun t => env.upload1 t = .transient)) := by
        have hmk := mainPass_ok_of_noFatal env (taskPairs env src dest fbt.toList.flatten) hnofatal
        rw [hmp] at hmk
        rw [← taskPairs_filter_transient]
        exact Except.ok.inj hmk
      rw [uploadFolder_retry env src dest fbt failures hfbt hmp] at h
      have hnofatal2 : ∀ p ∈ failures, env.upload2 p.1 ≠ .fatal := by
        intro p hp hf
        have herr : retryPass env failures = .error () :=
          (retryPass_error_iff env failures).mpr ⟨p, hp, hf⟩
        rw [h] at herr
        exact Except.noConfusion herr
      have hres : results = failures.map (retryOutcome env) := by
        have hrk := retryPass_ok_of_noFatal env failures hnofatal2
        rw [h] at hrk
        exact Except.ok.inj hrk
      constructor
      · rw [hres, hfail, hmt]
        unfold taskPairs
        rw [List.map_map]
        rfl
      · intro t ht hf
        rw [hmt] at ht
        exact hnofatal (t, buildDestPath env.sep src dest t)
          (fst_mem_taskPairs env src dest _ t ht) hf

/-- **C1**: the outcome list returned by `uploadFolder` has exactly one
entry per first-pass transient failure: a task that failed transiently
and whose retry succeeds appears exactly once, tagged SUCCESS; one whose
retry fails transiently again appears exactly once, tagged FAILURE; a
task that succeeded on its first attempt never appears at all. -/
theorem c1_retry_outcome_list (env : Env) (src dest : String)
    (results : List UploadOutcome) (f g : String)
    (hok : uploadFolder env src dest = .ok results)
    (hcount : (mainTasks env).count f = 1)
    (hft : env.upload1 f = .transient)
    (hgs : env.upload1 g = .success) :
    (env.upload2 f = .success →
      results.filter (fun o => o.file == f) =
        [{ resultType := .SUCCESS, error := none, file := f }]) ∧
    (env.upload2 f = .transient →
      results.filter (fun o => o.file == f) =
        [{ resultType := .FAILURE, error := some (), file := f }]) ∧
    results.filter (fun o => o.file == g) = [] := by
  obtain ⟨hres, _hnofatal⟩ := uploadFolder_ok_results env src dest results hok
  have hfilter : ∀ a : String, results.filter (fun o => o.file == a) =
      (((mainTasks env).filter (fun t => env.upload1 t = .transient)).filter
          (fun t => t == a)).map
        (fun t => retryOutcome env (t, buildDestPath env.sep src dest t)) := by
    intro a
    rw [hres, List.filter_map]
    congr 1
    apply List.filter_congr
    intro t _ht
    simp [Function.comp, retryOutcome_file]
  have htsf : ((mainTasks env).filter (fun t => env.upload1 t = .transient)).count f = 1 := by
    rw [List.count_filter]
    · exact hcount
    · simp [hft]
  have hsingle : ((mainTasks env).filter (fun t => env.upload1 t = .transient)).filter
      (fun t => t == f) = [f] := by
    rw [List.filter_beq, htsf, List.replicate_one]
  refine ⟨?_, ?_, ?_⟩
  · intro h2
    rw [hfilter f, hsingle]
    simp [retryOutcome, h2]
  · intro h2
    rw [hfilter f, hsingle]
    simp [retryOutcome, h2]
  · rw [hfilter g]
    have hnil : ((mainTasks env).filter (fun t => env.upload1 t = .transient)).filter
        (fun t => t == g) = [] := by
      rw [List.filter_eq_nil_iff]
      intro t ht hbg
      have htg : t = g := by simpa using hbg
      subst htg
      have hmem := (List.mem_filter.mp ht).2
      simp [hgs] at hmem
    rw [hnil]
    simp

/-- A concrete demonstration environment: two eligible non-bundle files;
`src/a.js` fails transiently on its first attempt and succeeds on retry,
`src/b.html` succeeds on its first attempt. -/
def demoEnv : Env where
  files := ["src/a.js", "src/b.html"]
  sep := '/'
  isAllowedExtension := fun _ => true
  ignoreFilter := fun _ => true
  convertFieldsJs := fun _ => .ok ""
  readdirFiles := fun _ => []
  upload1 := fun t => if t = "src/a.js" then .transient else .success
  upload2 := fun _ => .success

/-- Witness for C1: the concrete run of `demoEnv` returns exactly one
SUCCESS outcome for the transiently-failed `src/a.js` and nothing for
the first-pass success `src/b.html`. -/
theorem c1_retry_outcome_list_witness :
    (demoEnv.upload2 "src/a.js" = .success →
      ([{ resultType := .SUCCESS, error := none, file := "src/a.js" }] :
          List UploadOutcome).filter (fun o => o.file == "src/a.js") =
        [{ resultType := .SUCCESS, error := none, file := "src/a.js" }]) ∧
    (demoEnv.upload2 "src/a.js" = .transient →
      ([{ resultType := .SUCCESS, error := none, file := "src/a.js" }] :
          List UploadOutcome).filter (fun o => o.file == "src/a.js") =
        [{ resultType := .FAILURE, error := some (), file := "src/a.js" }]) ∧
    ([{ resultType := .SUCCESS, error := none, file := "src/a.js" }] :
        List UploadOutcome).filter (fun o => o.file == "src/b.html") = [] :=
  c1_retry_outcome_list demoEnv "src" "dst"
    [{ resultType := .SUCCESS, error := none, file := "src/a.js" }]
    "src/a.js" "src/b.html" rfl (by decide) (by decide) (by decide)

theorem classifyOne_task_shape (env : Env) (f : String) (c : Cat) (t : String)
    (h : classifyOne env f = .ok (some (c, t))) :
    t = f ∨ env.convertFieldsJs f = .ok t := by
  cases hfind : (splitLocalPath env.sep f).find? (fun part => endsWithStr ".module" part) with
  | none =>
    rw [classifyOne_nonbundle env f hfind] at h
    simp at h
    exact Or.inl h.2.symm
  | some m =>
    by_cases hlast : (splitLocalPath env.sep f).getLast?.getD "" = "fields.js"
    · rw [classifyOne_bundle_fieldsJs env f m hfind hlast] at h
      cases hconv : env.convertFieldsJs f with
      | ok conv =>
        rw [hconv, except_map_ok] at h
        simp at h
        exact Or.inr (congrArg Except.ok h.2)
      | error e =>
        rw [hconv, except_map_error] at h
        exact Except.noConfusion h
    · by_cases hext : getExt env.sep f = "json"
      · by_cases hmeta : (splitLocalPath env.sep f).getLast?.getD "" = "meta.json"
        · rw [classifyOne_bundle_meta env f m hfind hmeta hext] at h
          simp at h
          exact Or.inl h.2.symm
        · by_cases hfj : (splitLocalPath env.sep f).getLast?.getD "" = "fields.json"
          · by_cases hdir : "fields.js" ∈ env.readdirFiles (dirname env.sep f)
            · rw [classifyOne_bundle_fieldsJson_sibling env f m hfind hfj hext hdir] at h
              simp at h
            · rw [classifyOne_bundle_fieldsJson_noSibling env f m hfind hfj hext hdir] at h
              simp at h
              exact Or.inl h.2.symm
          · rw [classifyOne_bundle_otherJson env f m hfind hlast hmeta hfj hext] at h
            simp at h
      · rw [classifyOne_bundle_nonJson env f m hfind hlast hext] at h
        simp at h
        exact Or.inl h.2.symm

theorem mainTasks_source (env : Env) (t : String) (ht : t ∈ mainTasks env) :
    ∃ f ∈ allowedFiles env, t = f ∨ env.convertFieldsJs f = .ok t := by
  unfold mainTasks at ht
  split at ht
  · exact absurd ht (List.not_mem_nil t)
  · rename_i fbt hfbt
    rcases (mem_batches_iff env (allowedFiles env) fbt hfbt t).mp ht with ⟨f, hf, c, hcf⟩
    exact ⟨f, hf, classifyOne_task_shape env f c t hcf⟩

/-- **C7**: a walked file that fails the extension allow-list or is
matched by the ignore rules never yields an upload task: it is dropped
by the eligibility filter, appears in no category batch, and appears in
no retry batch (under the proviso that no scripted-fields conversion
artifact happens to share its path). -/
theorem c7_excluded_never_tasked (env : Env) (f : String)
    (_hwalk : f ∈ env.files)
    (hexcl : env.isAllowedExtension f = false ∨ env.ignoreFilter f = false)
    (hnc : ∀ g ∈ allowedFiles env, env.convertFieldsJs g ≠ .ok f) :
    f ∉ allowedFiles env ∧ f ∉ mainTasks env ∧
      f ∉ (mainTasks env).filter (fun t => env.upload1 t = .transient) := by
  have hna : f ∉ allowedFiles env := by
    intro hmem
    unfold allowedFiles at hmem
    have h2 := (List.mem_filter.mp hmem).2
    have h1 := (List.mem_filter.mp (List.mem_filter.mp hmem).1).2
    rcases hexcl with h | h
    · simp [h] at h1
    · simp [h] at h2
  have hnm : f ∉ mainTasks env := by
    intro hmem
    rcases mainTasks_source env f hmem with ⟨g, hg, hcase⟩
    rcases hcase with rfl | hconv
    · exact hna hg
    · exact hnc g hg hconv
  exact ⟨hna, hnm, fun hmem => hnm (List.mem_filter.mp hmem).1⟩

/-- A concrete environment in which `src/skip.txt` is walked but fails
the extension allow-list. -/
def excludeEnv : Env where
  files := ["src/a.js", "src/skip.txt"]
  sep := '/'
  isAllowedExtension := fun f => f ≠ "src/skip.txt"
  ignoreFilter := fun _ => true
  convertFieldsJs := fun _ => .ok ""
  readdirFiles := fun _ => []
  upload1 := fun _ => .success
  upload2 := fun _ => .success

/-- Witness for C7: the disallowed `src/skip.txt` of `excludeEnv` is
filtered out and appears in no batch. -/
theorem c7_excluded_never_tasked_witness :
    "src/skip.txt" ∉ allowedFiles excludeEnv ∧
    "src/skip.txt" ∉ mainTasks excludeEnv ∧
    "src/skip.txt" ∉ (mainTasks excludeEnv).filter
      (fun t => excludeEnv.upload1 t = .transient) :=
  c7_excluded_never_tasked excludeEnv "src/skip.txt" (by decide)
    (Or.inl (by decide)) (by decide)

/-- The array of `fbt` that belongs to category `c`. -/
def FilesByType.ofCat (fbt : FilesByType) : Cat → List String
  | .otherF => fbt.otherFiles
  | .moduleF => fbt.moduleFiles
  | .cssjs => fbt.cssAndJsFiles
  | .template => fbt.templateFiles
  | .json => fbt.jsonFiles

theorem mem_ofCat_iff (env : Env) (files : List String) (fbt : FilesByType)
    (h : getFilesByType env files = .ok fbt) (c : Cat) (t : String) :
    t ∈ fbt.ofCat c ↔ ∃ f ∈ files, classifyOne env f = .ok (some (c, t)) := by
  rcases getFilesByType_ok env files fbt h with ⟨cl, hcl, rfl⟩
  have hsel : t ∈ selectTasks c cl ↔ ∃ f ∈ files, classifyOne env f = .ok (some (c, t)) := by
    rw [mem_selectTasks]
    constructor
    · intro hin
      exact forall₂_mem_right (classifyAll_ok_forall₂ _ _ _ hcl) hin
    · rintro ⟨f, hf, hcf⟩
      rcases forall₂_mem_left (classifyAll_ok_forall₂ _ _ _ hcl) hf with ⟨y, hy, hfy⟩
      rw [hcf] at hfy
      obtain rfl := Except.ok.inj hfy
      exact hy
  cases c <;> exact hsel

/-- **C6**: bundle-folder membership wins over the extension rules: a
file with a path segment whose name ends in ".module" is only ever
classified into the BUNDLE_ASSET category (`moduleFiles`); its task is
never placed in STYLE_SCRIPT, TEMPLATE, DATA or OTHER, regardless of
its extension. -/
theorem c6_bundle_precedence (env : Env) (f m : String)
    (hfind : (splitLocalPath env.sep f).find? (fun part => endsWithStr ".module" part) = some m)
    (c : Cat) (t : String)
    (hc : classifyOne env f = .ok (some (c, t))) :
    c = .moduleF := by
  by_cases hlast : (splitLocalPath env.sep f).getLast?.getD "" = "fields.js"
  · rw [classifyOne_bundle_fieldsJs env f m hfind hlast] at hc
    cases hconv : env.convertFieldsJs f with
    | ok conv =>
      rw [hconv, except_map_ok] at hc
      simp at hc
      exact hc.1.symm
    | error e =>
      rw [hconv, except_map_error] at hc
      exact Except.noConfusion hc
  · by_cases hext : getExt env.sep f = "json"
    · by_cases hmeta : (splitLocalPath env.sep f).getLast?.getD "" = "meta.json"
      · rw [classifyOne_bundle_meta env f m hfind hmeta hext] at hc
        simp at hc
        exact hc.1.symm
      · by_cases hfj : (splitLocalPath env.sep f).getLast?.getD "" = "fields.json"
        · by_cases hdir : "fields.js" ∈ env.readdirFiles (dirname env.sep f)
          · rw [classifyOne_bundle_fieldsJson_sibling env f m hfind hfj hext hdir] at hc
            simp at hc
          · rw [classifyOne_bundle_fieldsJson_noSibling env f m hfind hfj hext hdir] at hc
            simp at hc
            exact hc.1.symm
        · rw [classifyOne_bundle_otherJson env f m hfind hlast hmeta hfj hext] at hc
          simp at hc
    · rw [classifyOne_bundle_nonJson env f m hfind hlast hext] at hc
      simp at hc
      exact hc.1.symm

/-- **C5**: in a bundle folder, a static `fields.json` is classified
only when no `fields.js` exists on disk in the same directory: with a
scripted sibling the static file gets no task at all (it is dropped and
the transformed artifact of the `fields.js` is pushed to `moduleFiles`
instead); without one, the `fields.json` itself is pushed to
`moduleFiles` unchanged. -/
theorem c5_scripted_fields_supersede (env : Env) (fbt : FilesByType)
    (hfbt : getFilesByType env (allowedFiles env) = .ok fbt)
    (f m : String) (hf : f ∈ allowedFiles env)
    (hfind : (splitLocalPath env.sep f).find? (fun part => endsWithStr ".module" part) = some m)
    (hlast : (splitLocalPath env.sep f).getLast?.getD "" = "fields.json")
    (hext : getExt env.sep f = "json") :
    ("fields.js" ∈ env.readdirFiles (dirname env.sep f) →
      classifyOne env f = .ok none) ∧
    ("fields.js" ∉ env.readdirFiles (dirname env.sep f) →
      f ∈ fbt.moduleFiles) ∧
    (∀ g mg a, g ∈ allowedFiles env →
      (splitLocalPath env.sep g).find? (fun part => endsWithStr ".module" part) = some mg →
      (splitLocalPath env.sep g).getLast?.getD "" = "fields.js" →
      env.convertFieldsJs g = .ok a →
      a ∈ fbt.moduleFiles) := by
  refine ⟨?_, ?_, ?_⟩
  · intro hdir
    exact classifyOne_bundle_fieldsJson_sibling env f m hfind hlast hext hdir
  · intro hdir
    have hcf := classifyOne_bundle_fieldsJson_noSibling env f m hfind hlast hext hdir
    exact (mem_ofCat_iff env (allowedFiles env) fbt hfbt .moduleF f).mpr ⟨f, hf, hcf⟩
  · intro g mg a hg hfindg hlastg hconv
    have hcg := classifyOne_bundle_fieldsJs env g mg hfindg hlastg
    rw [hconv, except_map_ok] at hcg
    exact (mem_ofCat_iff env (allowedFiles env) fbt hfbt .moduleF a).mpr ⟨g, hg, hcg⟩

/-- A concrete bundle environment: one asset bundle `src/b.module`
holding a `meta.json`, a scripted `fields.js` (whose conversion yields
`src/b.module/_fields_converted.json`), a static `fields.json`, a
stylesheet and a stray `junk.json`; every file is eligible and every
upload succeeds. -/
def bundleEnv : Env where
  files := ["src/b.module/meta.json", "src/b.module/fields.js",
            "src/b.module/fields.json", "src/b.module/style.css",
            "src/b.module/junk.json"]
  sep := '/'
  isAllowedExtension := fun _ => true
  ignoreFilter := fun _ => true
  convertFieldsJs := fun _ => .ok "src/b.module/_fields_converted.json"
  readdirFiles := fun d =>
    if d = "src/b.module" then
      ["meta.json", "fields.js", "fields.json", "style.css", "junk.json"]
    else []
  upload1 := fun _ => .success
  upload2 := fun _ => .success

/-- The classification of `bundleEnv`'s eligible files: everything
lands in `moduleFiles`; the scripted fields file is represented by its
converted artifact, the static `fields.json` and the stray `junk.json`
are dropped. -/
def bundleFbt : FilesByType where
  otherFiles := []
  moduleFiles := ["src/b.module/meta.json", "src/b.module/_fields_converted.json",
                  "src/b.module/style.css"]
  cssAndJsFiles := []
  templateFiles := []
  jsonFiles := []

/-- Witness for C5: in `bundleEnv` the static `fields.json` (whose
directory holds a `fields.js` on disk) is dropped while the converted
artifact lands in `moduleFiles`. -/
theorem c5_scripted_fields_supersede_witness :
    ("fields.js" ∈ bundleEnv.readdirFiles (dirname bundleEnv.sep "src/b.module/fields.json") →
      classifyOne bundleEnv "src/b.module/fields.json" = .ok none) ∧
    ("fields.js" ∉ bundleEnv.readdirFiles (dirname bundleEnv.sep "src/b.module/fields.json") →
      "src/b.module/fields.json" ∈ (bundleFbt).moduleFiles) ∧
    (∀ g mg a, g ∈ allowedFiles bundleEnv →
      (splitLocalPath bundleEnv.sep g).find? (fun part => endsWithStr ".module" part) = some mg →
      (splitLocalPath bundleEnv.sep g).getLast?.getD "" = "fields.js" →
      bundleEnv.convertFieldsJs g = .ok a →
      a ∈ (bundleFbt).moduleFiles) :=
  c5_scripted_fields_supersede bundleEnv bundleFbt rfl
    "src/b.module/fields.json" "b.module" (by decide) (by decide) (by decide) (by decide)

/-- Witness for C6: the stylesheet inside the bundle of `bundleEnv` is
classified `moduleF`. -/
theorem c6_bundle_precedence_witness : Cat.moduleF = Cat.moduleF :=
  c6_bundle_precedence bundleEnv "src/b.module/style.css" "b.module" (by decide)
    Cat.moduleF "src/b.module/style.css" (by decide)

/-- **C10**: the fields.json-superseding decision is made against the
on-disk directory listing (`fs.readdirSync` of the file's parent), not
against the eligible file set: a `fields.js` present on disk suppresses
the sibling `fields.json` even when that `fields.js` is itself excluded
by the ignore rules, so neither fields artifact yields an upload task. -/
theorem c10_sibling_check_on_disk (env : Env) (f g m : String)
    (_hf : f ∈ allowedFiles env)
    (hfind : (splitLocalPath env.sep f).find? (fun part => endsWithStr ".module" part) = some m)
    (hlast : (splitLocalPath env.sep f).getLast?.getD "" = "fields.json")
    (hext : getExt env.sep f = "json")
    (hdisk : "fields.js" ∈ env.readdirFiles (dirname env.sep f))
    (_hgwalk : g ∈ env.files)
    (hgignored : env.ignoreFilter g = false)
    (hncf : ∀ x ∈ allowedFiles env, env.convertFieldsJs x ≠ .ok f)
    (hncg : ∀ x ∈ allowedFiles env, env.convertFieldsJs x ≠ .ok g) :
    classifyOne env f = .ok none ∧ f ∉ mainTasks env ∧ g ∉ mainTasks env := by
  have hdrop := classifyOne_bundle_fieldsJson_sibling env f m hfind hlast hext hdisk
  refine ⟨hdrop, ?_, ?_⟩
  · intro hmem
    unfold mainTasks at hmem
    split at hmem
    · exact absurd hmem (List.not_mem_nil f)
    · rename_i fbt hfbt
      rcases (mem_batches_iff env (allowedFiles env) fbt hfbt f).mp hmem with ⟨x, hx, c, hcx⟩
      rcases classifyOne_task_shape env x c f hcx with rfl | hconv
      · rw [hdrop] at hcx
        simp at hcx
      · exact hncf x hx hconv
  · intro hmem
    have hgna : g ∉ allowedFiles env := by
      intro hga
      have h2 := (List.mem_filter.mp hga).2
      simp [hgignored] at h2
    unfold mainTasks at hmem
    split at hmem
    · exact absurd hmem (List.not_mem_nil g)
    · rename_i fbt hfbt
      rcases (mem_batches_iff env (allowedFiles env) fbt hfbt g).mp hmem with ⟨x, hx, c, hcx⟩
      rcases classifyOne_task_shape env x c g hcx with rfl | hconv
      · exact hgna hx
      · exact hncg x hx hconv

/-- A concrete environment for the on-disk sibling check: the walker
sees both fields files, the ignore rules exclude the `fields.js`, yet
`fields.js` is present in the on-disk listing of the bundle folder. -/
def onDiskEnv : Env where
  files := ["src/b.module/fields.js", "src/b.module/fields.json"]
  sep := '/'
  isAllowedExtension := fun _ => true
  ignoreFilter := fun f => f ≠ "src/b.module/fields.js"
  convertFieldsJs := fun _ => .ok "src/elsewhere.json"
  readdirFiles := fun d =>
    if d = "src/b.module" then ["fields.js", "fields.json"] else []
  upload1 := fun _ => .success
  upload2 := fun _ => .success

/-- Witness for C10: in `onDiskEnv` the eligible `fields.json` is
dropped because of the on-disk (ignored) `fields.js`, and neither file
yields a task. -/
theorem c10_sibling_check_on_disk_witness :
    classifyOne onDiskEnv "src/b.module/fields.json" = .ok none ∧
    "src/b.module/fields.json" ∉ mainTasks onDiskEnv ∧
    "src/b.module/fields.js" ∉ mainTasks onDiskEnv :=
  c10_sibling_check_on_disk onDiskEnv "src/b.module/fields.json" "src/b.module/fields.js"
    "b.module" (by decide) (by decide) (by decide) (by decide) (by decide) (by decide)
    (by decide) (by decide) (by decide)

/-- Modelled from the spec: the destination path of §3, stated in the
spec's own words — strip the source-root prefix from the file's path,
join the remainder onto the destination root, normalize the result to
forward-slash separators. -/
def specDestinationPath (sep : Char) (src dest file : String) : String :=
  let remainder := if startsWithStr src file then file.drop src.length else file
  convertToUnixPath sep (pathJoin sep dest remainder)

theorem convertToUnixPath_char (sep : Char) (s : String) (c : Char)
    (hc : c ∈ (convertToUnixPath sep s).data) : c = '/' ∨ c ≠ sep := by
  unfold convertToUnixPath at hc
  rcases List.mem_map.mp hc with ⟨c0, _hc0, rfl⟩
  by_cases h : c0 = sep
  · exact Or.inl (by simp [h])
  · exact Or.inr (by simp [h])

/-- **C8**: every upload task's destination path is the source-path with
the source root stripped, joined onto the destination root, normalized
to forward slashes (the spec's §3 description), and the normalized
result never contains the host separator unless that separator is `/`
itself — the representation is forward-slash regardless of host
convention. -/
theorem c8_destination_path (env : Env) (src dest : String) (ts : List String) :
    (∀ p ∈ taskPairs env src dest ts, p.2 = specDestinationPath env.sep src dest p.1) ∧
    (∀ file, buildDestPath env.sep src dest file = specDestinationPath env.sep src dest file) ∧
    (∀ file c, c ∈ (buildDestPath env.sep src dest file).data → c = '/' ∨ c ≠ env.sep) := by
  refine ⟨?_, ?_, ?_⟩
  · intro p hp
    rcases List.mem_map.mp hp with ⟨t, _ht, rfl⟩
    rfl
  · intro file
    rfl
  · intro file c hc
    exact convertToUnixPath_char env.sep (pathJoin env.sep dest (stripRoot src file)) c hc

theorem selectTasks_cons_none (c : Cat) (rest : List (Option (Cat × String))) :
    selectTasks c (none :: rest) = selectTasks c rest := by
  simp [selectTasks]

theorem selectTasks_cons_same (c : Cat) (t : String) (rest : List (Option (Cat × String))) :
    selectTasks c (some (c, t) :: rest) = t :: selectTasks c rest := by
  simp [selectTasks]

theorem selectTasks_cons_other (c c' : Cat) (t : String) (rest : List (Option (Cat × String)))
    (h : c ≠ c') :
    selectTasks c' (some (c, t) :: rest) = selectTasks c' rest := by
  simp [selectTasks, h]

theorem perm_cons_extract {α : Type} (t : α) (pre : List (List α)) (mid : List α)
    (post : List (List α)) :
    ((pre ++ (t :: mid) :: post).flatten).Perm (t :: (pre ++ mid :: post).flatten) := by
  induction pre with
  | nil => simp
  | cons a pre ih =>
    simp only [List.cons_append, List.flatten_cons]
    exact (List.Perm.append_left a ih).trans List.perm_middle

theorem flatten_selectTasks_perm (cl : List (Option (Cat × String))) :
    ([selectTasks .otherF cl, selectTasks .moduleF cl, selectTasks .cssjs cl,
      selectTasks .template cl, selectTasks .json cl].flatten).Perm
      (cl.filterMap (fun o => o.map Prod.snd)) := by
  induction cl with
  | nil => simp [selectTasks]
  | cons o rest ih =>
    cases o with
    | none =>
      simp only [selectTasks_cons_none, List.filterMap_cons]
      simpa using ih
    | some p =>
      obtain ⟨c, t⟩ := p
      have hfm : List.filterMap (fun o => Option.map Prod.snd o) (some (c, t) :: rest) =
          t :: List.filterMap (fun o => Option.map Prod.snd o) rest := by
        simp
      cases c
      case otherF =>
        rw [selectTasks_cons_same .otherF t rest,
            selectTasks_cons_other .otherF .moduleF t rest (by decide),
            selectTasks_cons_other .otherF .cssjs t rest (by decide),
            selectTasks_cons_other .otherF .template t rest (by decide),
            selectTasks_cons_other .otherF .json t rest (by decide), hfm]
        exact (perm_cons_extract t [] (selectTasks .otherF rest)
          [selectTasks .moduleF rest, selectTasks .cssjs rest,
           selectTasks .template rest, selectTasks .json rest]).trans (List.Perm.cons t ih)
      case moduleF =>
        rw [selectTasks_cons_other .moduleF .otherF t rest (by decide),
            selectTasks_cons_same .moduleF t rest,
            selectTasks_cons_other .moduleF .cssjs t rest (by decide),
            selectTasks_cons_other .moduleF .template t rest (by decide),
            selectTasks_cons_other .moduleF .json t rest (by decide), hfm]
        exact (perm_cons_extract t [selectTasks .otherF rest] (selectTasks .moduleF rest)
          [selectTasks .cssjs rest, selectTasks .template rest,
           selectTasks .json rest]).trans (List.Perm.cons t ih)
      case cssjs =>
        rw [selectTasks_cons_other .cssjs .otherF t rest (by decide),
            selectTasks_cons_other .cssjs .moduleF t rest (by decide),
            selectTasks_cons_same .cssjs t rest,
            selectTasks_cons_other .cssjs .template t rest (by decide),
            selectTasks_cons_other .cssjs .json t rest (by decide), hfm]
        exact (perm_cons_extract t [selectTasks .otherF rest, selectTasks .moduleF rest]
          (selectTasks .cssjs rest)
          [selectTasks .template rest, selectTasks .json rest]).trans (List.Perm.cons t ih)
      case template =>
        rw [selectTasks_cons_other .template .otherF t rest (by decide),
            selectTasks_cons_other .template .moduleF t rest (by decide),
            selectTasks_cons_other .template .cssjs t rest (by decide),
            selectTasks_cons_same .template t rest,
            selectTasks_cons_other .template .json t rest (by decide), hfm]
        exact (perm_cons_extract t
          [selectTasks .otherF rest, selectTasks .moduleF rest, selectTasks .cssjs rest]
          (selectTasks .template rest) [selectTasks .json rest]).trans (List.Perm.cons t ih)
      case json =>
        rw [selectTasks_cons_other .json .otherF t rest (by decide),
            selectTasks_cons_other .json .moduleF t rest (by decide),
            selectTasks_cons_other .json .cssjs t rest (by decide),
            selectTasks_cons_other .json .template t rest (by decide),
            selectTasks_cons_same .json t rest, hfm]
        exact (perm_cons_extract t
          [selectTasks .otherF rest, selectTasks .moduleF rest, selectTasks .cssjs rest,
           selectTasks .template rest]
          (selectTasks .json rest) []).trans (List.Perm.cons t ih)

theorem filterMap_keptTask_eq (env : Env) (files : List String)
    (cl : List (Option (Cat × String)))
    (h : List.Forall₂ (fun x y => classifyOne env x = .ok y) files cl) :
    cl.filterMap (fun o => o.map Prod.snd) = files.filterMap (keptTask env) := by
  induction h with
  | nil => rfl
  | cons hR htl ih =>
    rename_i x y l1 l2
    have hk : keptTask env x = y.map Prod.snd := by
      unfold keptTask
      rw [hR]
      cases y with
      | none => rfl
      | some p =>
        obtain ⟨c, t⟩ := p
        rfl
    simp only [List.filterMap_cons, hk, ih]

theorem mainTasks_perm (env : Env) (fbt : FilesByType)
    (hfbt : getFilesByType env (allowedFiles env) = .ok fbt) :
    (mainTasks env).Perm ((allowedFiles env).filterMap (keptTask env)) := by
  rcases getFilesByType_ok env (allowedFiles env) fbt hfbt with ⟨cl, hcl, rfl⟩
  rw [mainTasks_eq env _ hfbt]
  unfold FilesByType.toList
  refine (flatten_selectTasks_perm cl).trans ?_
  rw [filterMap_keptTask_eq env (allowedFiles env) cl (classifyAll_ok_forall₂ env _ cl hcl)]

/-- An environment whose single eligible file is a JSON file inside a
bundle folder that is neither `meta.json` nor `fields.json`: the
classifier drops it. -/
def droppedJsonEnv : Env where
  files := ["a.module/x.json"]
  sep := '/'
  isAllowedExtension := fun _ => true
  ignoreFilter := fun _ => true
  convertFieldsJs := fun _ => .ok ""
  readdirFiles := fun _ => ["x.json"]
  upload1 := fun _ => .success
  upload2 := fun _ => .success

/-- Counterexample to C4 as stated: `a.module/x.json` passes the
eligibility filter, yet the main pass creates no task at all for it —
not exactly one. -/
theorem c4_counterexample :
    "a.module/x.json" ∈ allowedFiles droppedJsonEnv ∧
    ¬ (mainTasks droppedJsonEnv).count "a.module/x.json" = 1 := by
  refine ⟨by decide, by decide⟩

/-- **C4 (amended)**: every eligible file from which the classifier
creates a task (`keptTask`: the file itself, or the converted artifact
of a scripted fields file — bundle JSON files other than `meta.json`
and a non-superseded `fields.json` create none) contributes exactly one
task to the main pass, and at most one entry to the retry pass: no file
is retried more than once. -/
theorem c4_one_task_per_kept_file (env : Env) (fbt : FilesByType)
    (hfbt : getFilesByType env (allowedFiles env) = .ok fbt)
    (hnodup : (allowedFiles env).Nodup)
    (f t : String) (hf : f ∈ allowedFiles env)
    (hkt : keptTask env f = some t)
    (huniq : ∀ g ∈ allowedFiles env, g ≠ f → keptTask env g ≠ some t) :
    (mainTasks env).count t = 1 ∧
    ((mainTasks env).filter (fun u => env.upload1 u = .transient)).count t ≤ 1 := by
  have hperm := mainTasks_perm env fbt hfbt
  have hcount : (mainTasks env).count t =
      ((allowedFiles env).filterMap (keptTask env)).count t := hperm.count_eq t
  have hcp : ((allowedFiles env).filterMap (keptTask env)).count t = 1 := by
    rw [List.count_filterMap]
    have hcongr : List.countP (fun a => keptTask env a == some t) (allowedFiles env) =
        List.countP (fun a => a == f) (allowedFiles env) := by
      apply List.countP_congr
      intro g hg
      constructor
      · intro hbg
        have hgt : keptTask env g = some t := by simpa using hbg
        by_contra hne
        have hgf : g ≠ f := by simpa using hne
        exact huniq g hg hgf hgt
      · intro hbg
        have hgf : g = f := by simpa using hbg
        subst hgf
        simp [hkt]
    rw [hcongr]
    have hcf : List.countP (fun a => a == f) (allowedFiles env) =
        (allowedFiles env).count f := by
      rw [List.count]
    rw [hcf, List.count_eq_one_of_mem hnodup hf]
  refine ⟨by rw [hcount]; exact hcp, ?_⟩
  have hsub : ((mainTasks env).filter (fun u => env.upload1 u = .transient)).count t ≤
      (mainTasks env).count t := List.Sublist.count_le (List.filter_sublist _) t
  rw [hcount, hcp] at hsub
  exact hsub

/-- The classification of `demoEnv`'s files. -/
def demoFbt : FilesByType where
  otherFiles := []
  moduleFiles := []
  cssAndJsFiles := ["src/a.js"]
  templateFiles := ["src/b.html"]
  jsonFiles := []

/-- Witness for the amended C4 at the concrete `demoEnv`: the eligible
`src/a.js` yields exactly one main-pass task and at most one retry. -/
theorem c4_one_task_per_kept_file_witness :
    (mainTasks demoEnv).count "src/a.js" = 1 ∧
    ((mainTasks demoEnv).filter (fun u => demoEnv.upload1 u = .transient)).count "src/a.js" ≤ 1 :=
  c4_one_task_per_kept_file demoEnv demoFbt rfl (by decide) "src/a.js" "src/a.js"
    (by decide) (by decide) (by decide)

/-! ## Scheduling trace (for the batch-ordering claim) -/

/-- A scheduling event of the worker pool: a task of batch `batch` is
submitted to the pool, or a submitted task settles (resolves).  Batches
0–4 are the five category batches in processing order (0 = OTHER,
1 = BUNDLE_ASSET, 2 = STYLE_SCRIPT, 3 = TEMPLATE, 4 = DATA); batch 5 is
the retry batch. -/
inductive Event where
  | submit (batch : Nat) (task : String) : Event
  | resolve (batch : Nat) (task : String) : Event
deriving DecidableEq, Repr

/-- The batch index of an event. -/
def Event.batchIdx : Event → Nat
  | .submit b _ => b
  | .resolve b _ => b

/-- One batch: `queue.addAll` submits every task of the batch to the
pool, then the batch drains — every submitted task resolves, in an
order chosen by the scheduler function `ρ`. -/
def batchEvents (idx : Nat) (tasks : List String)
    (ρ : Nat → List String → List String) : List Event :=
  tasks.map (Event.submit idx) ++ (ρ idx tasks).map (Event.resolve idx)

/-- The `for` loop of `uploadFolder`: one batch per iteration, each
`await queue.addAll(...)` drained before the next iteration; a batch
holding a fatal first attempt rejects the await and the loop never
reaches the next batch (that batch's already dispatched tasks still
settle). -/
def tracedBatches (env : Env) (ρ : Nat → List String → List String) :
    Nat → List (List String) → List Event
  | _idx, [] => []
  | idx, b :: rest =>
    if b.any (fun t => env.upload1 t == .fatal) then batchEvents idx b ρ
    else batchEvents idx b ρ ++ tracedBatches env ρ (idx + 1) rest

/-- The full scheduling trace of a run: the five category batches in
their fixed order, and — when no main-pass attempt was fatal — the
retry batch of the recorded failures as batch 5. -/
def runTrace (env : Env) (ρ : Nat → List String → List String) : List Event :=
  match getFilesByType env (allowedFiles env) with
  | .error _ => []
  | .ok fbt =>
    if (fbt.toList.flatten).any (fun t => env.upload1 t == .fatal) then
      tracedBatches env ρ 0 fbt.toList
    else
      tracedBatches env ρ 0 fbt.toList ++
        batchEvents 5 ((fbt.toList.flatten).filter (fun t => env.upload1 t = .transient)) ρ

theorem batchEvents_batchIdx (idx : Nat) (tasks : List String)
    (ρ : Nat → List String → List String) (e : Event)
    (he : e ∈ batchEvents idx tasks ρ) : e.batchIdx = idx := by
  unfold batchEvents at he
  rcases List.mem_append.mp he with h | h
  · rcases List.mem_map.mp h with ⟨t, _, rfl⟩
    rfl
  · rcases List.mem_map.mp h with ⟨t, _, rfl⟩
    rfl

theorem tracedBatches_batchIdx (env : Env) (ρ : Nat → List String → List String) :
    ∀ (bs : List (List String)) (idx : Nat) (e : Event),
    e ∈ tracedBatches env ρ idx bs → idx ≤ e.batchIdx ∧ e.batchIdx < idx + bs.length := by
  intro bs
  induction bs with
  | nil =>
    intro idx e he
    exact absurd he (List.not_mem_nil e)
  | cons b rest ih =>
    intro idx e he
    unfold tracedBatches at he
    split at he
    · rw [batchEvents_batchIdx idx b ρ e he]
      simp
    · rcases List.mem_append.mp he with h | h
      · rw [batchEvents_batchIdx idx b ρ e h]
        simp
      · have hr := ih (idx + 1) e h
        refine ⟨by omega, ?_⟩
        simp only [List.length_cons]
        omega

theorem pairwise_batchIdx_const (idx : Nat) (l : List Event)
    (h : ∀ e ∈ l, Event.batchIdx e = idx) :
    l.Pairwise (fun a b => a.batchIdx ≤ b.batchIdx) := by
  induction l with
  | nil => exact List.Pairwise.nil
  | cons a rest ih =>
    refine List.Pairwise.cons ?_ (ih (fun e he => h e (List.mem_cons_of_mem _ he)))
    intro b hb
    rw [h a (List.mem_cons_self _ _), h b (List.mem_cons_of_mem _ hb)]

theorem tracedBatches_pairwise (env : Env) (ρ : Nat → List String → List String) :
    ∀ (bs : List (List String)) (idx : Nat),
    (tracedBatches env ρ idx bs).Pairwise (fun a b => a.batchIdx ≤ b.batchIdx) := by
  intro bs
  induction bs with
  | nil =>
    intro idx
    exact List.Pairwise.nil
  | cons b rest ih =>
    intro idx
    unfold tracedBatches
    split
    · exact pairwise_batchIdx_const idx _ (fun e he => batchEvents_batchIdx idx b ρ e he)
    · rw [List.pairwise_append]
      refine ⟨pairwise_batchIdx_const idx _ (fun e he => batchEvents_batchIdx idx b ρ e he),
        ih (idx + 1), ?_⟩
      intro a ha e he
      rw [batchEvents_batchIdx idx b ρ a ha]
      have := (tracedBatches_batchIdx env ρ rest (idx + 1) e he).1
      omega

theorem runTrace_pairwise (env : Env) (ρ : Nat → List String → List String) :
    (runTrace env ρ).Pairwise (fun a b => a.batchIdx ≤ b.batchIdx) := by
  cases hfbt : getFilesByType env (allowedFiles env) with
  | error e =>
    have heq : runTrace env ρ = [] := by simp [runTrace, hfbt]
    rw [heq]
    exact List.Pairwise.nil
  | ok fbt =>
    by_cases hfat : ((fbt.toList.flatten).any fun t => env.upload1 t == .fatal) = true
    · have heq : runTrace env ρ = tracedBatches env ρ 0 fbt.toList := by
        simp [runTrace, hfbt, hfat]
      rw [heq]
      exact tracedBatches_pairwise env ρ fbt.toList 0
    · have heq : runTrace env ρ = tracedBatches env ρ 0 fbt.toList ++
          batchEvents 5 ((fbt.toList.flatten).filter (fun t => env.upload1 t = .transient)) ρ := by
        simp [runTrace, hfbt, hfat]
      rw [heq, List.pairwise_append]
      refine ⟨tracedBatches_pairwise env ρ fbt.toList 0,
        pairwise_batchIdx_const 5 _ (fun e he => batchEvents_batchIdx 5 _ ρ e he), ?_⟩
      intro a ha e he
      have h1 := (tracedBatches_batchIdx env ρ fbt.toList 0 a ha).2
      have hlen : fbt.toList.length = 5 := rfl
      rw [hlen] at h1
      rw [batchEvents_batchIdx 5 _ ρ e he]
      omega

theorem submit_mem_batchEvents (idx : Nat) (tasks : List String)
    (ρ : Nat → List String → List String) (b : Nat) (t : String)
    (h : Event.submit b t ∈ batchEvents idx tasks ρ) : b = idx ∧ t ∈ tasks := by
  unfold batchEvents at h
  rcases List.mem_append.mp h with h | h
  · rcases List.mem_map.mp h with ⟨u, hu, he⟩
    obtain ⟨h1, h2⟩ := Event.submit.inj he
    exact ⟨h1.symm, h2 ▸ hu⟩
  · rcases List.mem_map.mp h with ⟨u, _hu, he⟩
    exact Event.noConfusion he

theorem resolve_mem_batchEvents (idx : Nat) (tasks : List String)
    (ρ : Nat → List String → List String) (hρ : ∀ i xs, (ρ i xs).Perm xs)
    (t : String) (ht : t ∈ tasks) :
    Event.resolve idx t ∈ batchEvents idx tasks ρ := by
  unfold batchEvents
  refine List.mem_append.mpr (Or.inr ?_)
  exact List.mem_map.mpr ⟨t, (hρ idx tasks).mem_iff.mpr ht, rfl⟩

theorem tracedBatches_submit_resolve (env : Env) (ρ : Nat → List String → List String)
    (hρ : ∀ i xs, (ρ i xs).Perm xs) :
    ∀ (bs : List (List String)) (idx : Nat) (b : Nat) (t : String),
    Event.submit b t ∈ tracedBatches env ρ idx bs →
    Event.resolve b t ∈ tracedBatches env ρ idx bs := by
  intro bs
  induction bs with
  | nil =>
    intro idx b t h
    exact absurd h (List.not_mem_nil _)
  | cons blk rest ih =>
    intro idx b t h
    unfold tracedBatches at h ⊢
    split at h
    · rename_i hcond
      rw [if_pos hcond]
      obtain ⟨rfl, htk⟩ := submit_mem_batchEvents idx blk ρ b t h
      exact resolve_mem_batchEvents b blk ρ hρ t htk
    · rename_i hcond
      rw [if_neg hcond]
      rcases List.mem_append.mp h with h | h
      · obtain ⟨rfl, htk⟩ := submit_mem_batchEvents idx blk ρ b t h
        exact List.mem_append.mpr (Or.inl (resolve_mem_batchEvents b blk ρ hρ t htk))
      · exact List.mem_append.mpr (Or.inr (ih (idx + 1) b t h))

theorem runTrace_submit_resolve (env : Env) (ρ : Nat → List String → List String)
    (hρ : ∀ i xs, (ρ i xs).Perm xs) (b : Nat) (t : String)
    (h : Event.submit b t ∈ runTrace env ρ) : Event.resolve b t ∈ runTrace env ρ := by
  cases hfbt : getFilesByType env (allowedFiles env) with
  | error e =>
    have heq : runTrace env ρ = [] := by simp [runTrace, hfbt]
    rw [heq] at h
    exact absurd h (List.not_mem_nil _)
  | ok fbt =>
    by_cases hfat : ((fbt.toList.flatten).any fun u => env.upload1 u == .fatal) = true
    · have heq : runTrace env ρ = tracedBatches env ρ 0 fbt.toList := by
        simp [runTrace, hfbt, hfat]
      rw [heq] at h ⊢
      exact tracedBatches_submit_resolve env ρ hρ fbt.toList 0 b t h
    · have heq : runTrace env ρ = tracedBatches env ρ 0 fbt.toList ++
          batchEvents 5 ((fbt.toList.flatten).filter (fun t => env.upload1 t = .transient)) ρ := by
        simp [runTrace, hfbt, hfat]
      rw [heq] at h ⊢
      rcases List.mem_append.mp h with h | h
      · exact List.mem_append.mpr
          (Or.inl (tracedBatches_submit_resolve env ρ hρ fbt.toList 0 b t h))
      · obtain ⟨rfl, htk⟩ := submit_mem_batchEvents 5 _ ρ b t h
        exact List.mem_append.mpr (Or.inr (resolve_mem_batchEvents 5 _ ρ hρ t htk))

/-- **C2**: batches run in the fixed order OTHER (0), BUNDLE_ASSET (1),
STYLE_SCRIPT (2), TEMPLATE (3), DATA (4), then the retry batch (5): for
every run and every scheduler `ρ` that resolves each batch's tasks in
some order, the trace is sorted by batch index; in particular an event
resolving a task of batch `b` always precedes any submission of a task
of a later batch `b' > b` (so no category-N+1 task is submitted before
batch N has drained, and the retry batch is submitted only after all
five category batches), and every submitted task resolves within its
own batch block. -/
theorem c2_batch_order (env : Env) (ρ : Nat → List String → List String)
    (hρ : ∀ i xs, (ρ i xs).Perm xs) :
    ((runTrace env ρ).Pairwise (fun a b => a.batchIdx ≤ b.batchIdx)) ∧
    (∀ (i j : Fin (runTrace env ρ).length) (b b' : Nat) (t t' : String),
      (runTrace env ρ).get i = Event.resolve b t →
      (runTrace env ρ).get j = Event.submit b' t' →
      b < b' → (i : Nat) < (j : Nat)) ∧
    (∀ b t, Event.submit b t ∈ runTrace env ρ → Event.resolve b t ∈ runTrace env ρ) := by
  refine ⟨runTrace_pairwise env ρ, ?_, fun b t h => runTrace_submit_resolve env ρ hρ b t h⟩
  intro i j b b' t t' hi hj hbb
  by_contra hij
  push_neg at hij
  have hp := runTrace_pairwise env ρ
  rw [List.pairwise_iff_get] at hp
  rcases lt_or_eq_of_le hij with hlt | heq
  · have hle := hp j i (Fin.lt_def.mpr hlt)
    rw [hi, hj] at hle
    simp only [Event.batchIdx] at hle
    omega
  · have hje : j = i := Fin.ext heq
    subst hje
    rw [hi] at hj
    exact Event.noConfusion hj

/-- The identity scheduler: each batch resolves in submission order. -/
def idSched : Nat → List String → List String := fun _ xs => xs

/-- Witness for C2 at the concrete run of `demoEnv` with the identity
scheduler. -/
theorem c2_batch_order_witness :
    ((runTrace demoEnv idSched).Pairwise (fun a b => a.batchIdx ≤ b.batchIdx)) ∧
    (∀ (i j : Fin (runTrace demoEnv idSched).length) (b b' : Nat) (t t' : String),
      (runTrace demoEnv idSched).get i = Event.resolve b t →
      (runTrace demoEnv idSched).get j = Event.submit b' t' →
      b < b' → (i : Nat) < (j : Nat)) ∧
    (∀ b t, Event.submit b t ∈ runTrace demoEnv idSched →
      Event.resolve b t ∈ runTrace demoEnv idSched) :=
  c2_batch_order demoEnv idSched (fun _ xs => List.Perm.refl xs)

end HubspotUpload

